import Mathlib

/-
  Verification development for the kube-watcher event pipeline.

  Shallow embedding of the core decision logic of the repository:
  - pkg/batcher/batcher.go     (window batcher: Add / flush / Stop)
  - pkg/dedup/dedup.go         (TTL + size bounded dedup cache)
  - pkg/filter (basic + CEL)   (per-kind event filter with fallback)
  - pkg/watcher/watcher.go     (hasSignificantChange)
  - pkg/formatter (batch path) (FormatBatchSlackMessage decision logic)
  - cmd/main.go                (RWMutex-guarded component snapshot)

  Machine integers are modelled as Int (Go int / int32 / time durations in
  nanoseconds are far from overflow in all modelled scenarios); wall-clock
  instants are Int nanosecond-style ticks. Go maps are modelled as
  association lists; where Go iterates a map in unspecified order, the model
  fixes list order (noted inline where it matters).
-/

namespace KW

/-! ## Event model (pkg/watcher/watcher.go) -/

/-- ContainerInfo from pkg/watcher/watcher.go. -/
structure ContainerInfo where
  name : String
  image : String
  deriving DecidableEq, Repr

/-- ReplicaInfo from pkg/watcher/watcher.go (int32 fields modelled as Int). -/
structure ReplicaInfo where
  desired : Int
  ready : Int
  current : Int
  deriving DecidableEq, Repr

/-- Event from pkg/watcher/watcher.go. The Go field Namespace is spelled ns
here because namespace is a Lean keyword; Object (the raw runtime.Object) is
not carried, the kind-specific data the pipeline reads is inlined. -/
structure Event where
  kind : String
  ns : String
  name : String
  eventType : String
  timestamp : Int
  labels : List (String × String)
  reason : String := ""
  message : String := ""
  status : String := ""
  containers : List ContainerInfo := []
  replicas : Option ReplicaInfo := none
  serviceType : String := ""
  deriving DecidableEq, Repr

/-! ## Batcher (pkg/batcher/batcher.go)

The batcher keeps a mutex-guarded buffer. Add appends and arms a one-shot
timer on the first event; the timer fires flush; Stop closes stopCh and then
calls flush synchronously. In the source, stopCh is closed by Stop but never
read by Add, flush or the timer path, so the stopped flag below is recorded
but (faithfully to the code) consulted by no operation. The sequential model
serialises the mutex-protected sections: an operation is an Add, a timer
firing (flush), or a Stop. -/

/-- One mutex-serialised batcher operation: Add, the window timer firing
(which runs flush), or Stop. -/
inductive BOp (α : Type) where
  | add (e : α)
  | flush
  | stop
  deriving DecidableEq, Repr

/-- State of Batcher plus the history of callback invocations: events is the
buffer b.events, emitted records each batch passed to the callback (in
order), stopped records that stopCh has been closed. -/
structure BatcherState (α : Type) where
  events : List α
  emitted : List (List α)
  stopped : Bool
  deriving DecidableEq, Repr

/-- Batcher.flush: if the buffer is empty return; otherwise snapshot the
buffer, reset it, and invoke the callback with the snapshot (recorded in
emitted). -/
def batcherFlush (s : BatcherState α) : BatcherState α :=
  if s.events.isEmpty then s
  else { events := [], emitted := s.emitted ++ [s.events], stopped := s.stopped }

/-- One step of the batcher. add appends to the buffer (and in the source
arms the timer when the buffer becomes a singleton; the timer firing is the
flush operation). stop closes stopCh (stopped := true) and then runs flush,
exactly as Batcher.Stop does; no operation reads stopped, as in the source
where stopCh is never received from. -/
def batcherStep (s : BatcherState α) : BOp α → BatcherState α
  | .add e => { s with events := s.events ++ [e] }
  | .flush => batcherFlush s
  | .stop => batcherFlush { s with stopped := true }

/-- Run a sequence of batcher operations from the freshly constructed
batcher (empty buffer, nothing emitted). -/
def batcherRun (ops : List (BOp α)) : BatcherState α :=
  ops.foldl batcherStep ⟨[], [], false⟩

/-- All events passed to add, in call order. -/
def addedEvents : List (BOp α) → List α
  | [] => []
  | .add e :: ops => e :: addedEvents ops
  | .flush :: ops => addedEvents ops
  | .stop :: ops => addedEvents ops

/-- Modelled from the spec: the batches the batcher is required to emit, by
the spec sentence that a batch contains every event passed to add since the
previous emission, in insertion order, and no others (flushes of an empty
buffer emit nothing). Used as the reference side of the refinement claim C4. -/
def specEmissions : List (BOp α) → List α → List (List α)
  | [], _ => []
  | .add e :: ops, acc => specEmissions ops (acc ++ [e])
  | .flush :: ops, acc =>
      if acc.isEmpty then specEmissions ops acc else acc :: specEmissions ops []
  | .stop :: ops, acc =>
      if acc.isEmpty then specEmissions ops acc else acc :: specEmissions ops []

/-! ## Deduplicator (pkg/dedup/dedup.go)

The cache map[string]CacheEntry is modelled as an association list keyed by
the makeCacheKey string; map update is modelled as cons plus removal of the
old binding. generateSignature (JSON marshal + sha256) is deterministic in
the payload, so ShouldProcess is modelled over the signature string it
produces. Go map iteration order in evictOldest is unspecified; the model
iterates in list order, which only resolves ties between entries with equal
timestamps. -/

/-- EventKey from pkg/dedup/dedup.go. -/
structure EventKey where
  kind : String
  ns : String
  name : String
  eventType : String
  deriving DecidableEq, Repr

/-- CacheEntry from pkg/dedup/dedup.go. -/
structure CacheEntry where
  signature : String
  timestamp : Int
  deriving DecidableEq, Repr

/-- Deduplicator state: the cache plus the ttl and maxSize configuration. -/
structure Dedup where
  cache : List (String × CacheEntry)
  ttl : Int
  maxSize : Int
  deriving DecidableEq, Repr

/-- makeCacheKey: fmt.Sprintf with four slash-separated components. -/
def makeCacheKey (k : EventKey) : String :=
  k.kind ++ "/" ++ k.ns ++ "/" ++ k.name ++ "/" ++ k.eventType

/-- Map read d.cache[cacheKey]. -/
def lookupCache (cache : List (String × CacheEntry)) (key : String) : Option CacheEntry :=
  (cache.find? (fun p => p.1 == key)).map (fun p => p.2)

/-- The loop body of evictOldest: accumulator is (oldestKey, oldestTime,
first); an entry replaces the accumulator when first is set or its timestamp
is strictly before the recorded oldestTime. -/
def evictStep (acc : String × Int × Bool) (p : String × CacheEntry) : String × Int × Bool :=
  if acc.2.2 = true ∨ p.2.timestamp < acc.2.1 then (p.1, p.2.timestamp, false) else acc

/-- evictOldest: scan for the minimal-timestamp entry and delete it; the
oldestKey is the empty string (and nothing is deleted) only when the scan
saw no entry. -/
def evictOldest (cache : List (String × CacheEntry)) : List (String × CacheEntry) :=
  let r := cache.foldl evictStep ("", 0, true)
  if r.1 = "" then cache else cache.filter (fun p => p.1 != r.1)

/-- The insert path of ShouldProcess: evict when len(cache) >= maxSize (the
check precedes the write, as in the source, so it runs even when the write
overwrites an existing binding), then write cache[cacheKey] = {sig, now}. -/
def dedupInsert (d : Dedup) (cacheKey : String) (sig : String) (now : Int) : Dedup :=
  let cache1 := if (d.cache.length : Int) ≥ d.maxSize then evictOldest d.cache else d.cache
  { d with cache := (cacheKey, ⟨sig, now⟩) :: cache1.filter (fun p => p.1 != cacheKey) }

/-- Deduplicator.ShouldProcess: duplicate (false, unchanged cache) exactly
when a binding for the key exists whose signature matches and whose age
time.Since(entry.Timestamp) is below ttl; otherwise insert a fresh entry and
return true. sig stands for generateSignature(data). -/
def dedupShouldProcess (d : Dedup) (key : EventKey) (sig : String) (now : Int) :
    Bool × Dedup :=
  let cacheKey := makeCacheKey key
  match lookupCache d.cache cacheKey with
  | some entry =>
      if entry.signature = sig ∧ now - entry.timestamp < d.ttl then (false, d)
      else (true, dedupInsert d cacheKey sig now)
  | none => (true, dedupInsert d cacheKey sig now)

/-- NewDeduplicator: empty cache. -/
def dedupNew (ttl maxSize : Int) : Dedup := ⟨[], ttl, maxSize⟩

/-- Fold a sequence of ShouldProcess calls (key, signature, call time) over
the deduplicator state. -/
def dedupRun (d : Dedup) (calls : List (EventKey × String × Int)) : Dedup :=
  calls.foldl (fun d c => (dedupShouldProcess d c.1 c.2.1 c.2.2).2) d

/-- Every cache key is a makeCacheKey image, hence nonempty; this rules out
the empty-string sentinel of evictOldest ever matching a real entry. -/
def keysValid (cache : List (String × CacheEntry)) : Prop :=
  ∀ p ∈ cache, p.1 ≠ ""

/-- The state invariant of the deduplicator: configured maxSize, valid keys,
and cache size bounded by maxSize. -/
def DedupInv (m : Int) (d : Dedup) : Prop :=
  d.maxSize = m ∧ keysValid d.cache ∧ (d.cache.length : Int) ≤ m

/-! ## Filter (pkg/filter, basic rules and CEL fallback)

The CEL program compiled for a resource kind is an external component; it is
modelled as a function Event to Except Unit Bool (ok result or EvalError).
Filter.celFilters (populated only for rules with a successfully compiled
expression) is modelled as the map cels from kind to optional evaluator. -/

/-- FilterConfig from pkg/config/config.go; the expression string itself is
not carried because ShouldProcess only consults the compiled-program map. -/
structure FilterConfig where
  resource : String
  eventTypes : List String
  labels : List (String × String)
  deriving DecidableEq, Repr

/-- The filters section of Config. -/
structure FilterSettings where
  filters : List FilterConfig
  deriving DecidableEq, Repr

/-- Config.GetFilterForResource: first rule whose Resource equals the kind. -/
def getFilterForResource (c : FilterSettings) (kind : String) : Option FilterConfig :=
  c.filters.find? (fun f => f.resource == kind)

/-- Filter.matchesEventType. -/
def matchesEventType (eventType : String) (allowedTypes : List String) : Bool :=
  if allowedTypes.isEmpty then true
  else allowedTypes.any (fun t => t == eventType)

/-- Go map read eventLabels[k]: the bound value, or the zero value "" when
the key is absent. -/
def goMapGet (m : List (String × String)) (k : String) : String :=
  ((m.find? (fun p => p.1 == k)).map (fun p => p.2)).getD ""

/-- Filter.matchesLabels: every required pair must agree with the Go map
read of the event labels (a missing key reads as ""). -/
def matchesLabels (eventLabels requiredLabels : List (String × String)) : Bool :=
  if requiredLabels.isEmpty then true
  else requiredLabels.all (fun p => goMapGet eventLabels p.1 == p.2)

/-- The basic (eventTypes, labels) block at the end of Filter.ShouldProcess. -/
def basicFilter (fc : FilterConfig) (ev : Event) : Bool :=
  if !matchesEventType ev.eventType fc.eventTypes then false
  else if !fc.labels.isEmpty && !matchesLabels ev.labels fc.labels then false
  else true

/-- Filter.ShouldProcess (CEL variant, pkg/filter/filter.go): no rule passes
the event; a compiled expression, when present, decides unless evaluation
errors, in which case control falls through to the basic block. -/
def filterShouldProcess (cfg : FilterSettings)
    (cels : String → Option (Event → Except Unit Bool)) (ev : Event) : Bool :=
  match getFilterForResource cfg ev.kind with
  | none => true
  | some fc =>
      match cels ev.kind with
      | some cel =>
          match cel ev with
          | .ok r => r
          | .error _ => basicFilter fc ev
      | none => basicFilter fc ev

/-! ## Change detector (pkg/watcher/watcher.go, hasSignificantChange) -/

/-- The object metadata consulted by hasSignificantChange. -/
structure ObjMeta where
  resourceVersion : String
  deriving DecidableEq, Repr

/-- A typed snapshot of a watched object, carrying exactly the fields the
kind-specific branches of hasSignificantChange read. Service ports are
modelled as an opaque-to-the-check list (only the length is compared). -/
inductive KObj where
  | pod (meta : ObjMeta) (phase : String) (containers : List ContainerInfo)
  | deployment (meta : ObjMeta) (specReplicas readyReplicas : Int)
      (containers : List ContainerInfo)
  | service (meta : ObjMeta) (serviceType : String) (ports : List String)
  | replicaSet (meta : ObjMeta) (specReplicas readyReplicas : Int)
  | statefulSet (meta : ObjMeta) (specReplicas readyReplicas : Int)
  | configMap (meta : ObjMeta)
  | secret (meta : ObjMeta)
  | daemonSet (meta : ObjMeta)
  deriving DecidableEq, Repr

/-- The metav1.Object view: every modelled kind exposes its metadata. -/
def KObj.meta : KObj → ObjMeta
  | .pod m _ _ => m
  | .deployment m _ _ _ => m
  | .service m _ _ => m
  | .replicaSet m _ _ => m
  | .statefulSet m _ _ => m
  | .configMap m => m
  | .secret m => m
  | .daemonSet m => m

/-- The image-comparison loop over containers of equal count (the length
check precedes every use). -/
def imagesDiffer (oldCs newCs : List ContainerInfo) : Bool :=
  (oldCs.zip newCs).any (fun pr => pr.1.image != pr.2.image)

/-- Watcher.hasSignificantChange. Equal ResourceVersion short-circuits to
false before any kind-specific comparison. The default branch (ConfigMap,
Secret, DaemonSet) returns false; mismatched-kind pairs (which cannot occur
for updates of one object and would panic at the Go type assertion) also
fall to that branch. -/
def hasSignificantChange (oldObj newObj : KObj) : Bool :=
  if oldObj.meta.resourceVersion == newObj.meta.resourceVersion then false
  else
    match oldObj, newObj with
    | .pod _ oldPhase oldCs, .pod _ newPhase newCs =>
        if oldPhase != newPhase then true
        else if oldCs.length != newCs.length then true
        else imagesDiffer oldCs newCs
    | .deployment _ oSpec oReady oldCs, .deployment _ nSpec nReady newCs =>
        if oSpec != nSpec then true
        else if oReady != nReady then true
        else if oldCs.length != newCs.length then true
        else imagesDiffer oldCs newCs
    | .service _ oType oPorts, .service _ nType nPorts =>
        if oType != nType then true
        else oPorts.length != nPorts.length
    | .replicaSet _ oSpec oReady, .replicaSet _ nSpec nReady =>
        if oSpec != nSpec then true
        else oReady != nReady
    | .statefulSet _ oSpec oReady, .statefulSet _ nSpec nReady =>
        if oSpec != nSpec then true
        else oReady != nReady
    | _, _ => false

/-! ## Formatter batch rendering decisions (pkg/formatter/formatter.go)

FormatBatchSlackMessage renders each group either in detail (one attachment
per event) or as a summary attachment. The branch taken for a group is
showDetails := !useSummary && shouldShowDetailsForGroup(...), with
useSummary := mode == summary || (mode == smart && totalEvents > 20) — the
threshold 20 is a literal in the source, not the configured maxTotalEvents.
groupEvents iterates a Go map in unspecified order; the model lists groups
in first-occurrence order, which affects neither membership of a group nor
its decision. -/

/-- BatchMode from pkg/formatter/formatter.go. -/
inductive BatchMode where
  | detailed
  | summary
  | smart
  deriving DecidableEq, BEq, Repr

/-- EventGroup from pkg/formatter/formatter.go. -/
structure EventGroup where
  kind : String
  eventType : String
  events : List Event
  deriving DecidableEq, Repr

/-- groupEvents: partition a batch by the (kind, eventType) pair, keeping
each group internally in arrival order. -/
def groupEvents (events : List Event) : List EventGroup :=
  events.foldl
    (fun groups e =>
      if groups.any (fun g => g.kind == e.kind && g.eventType == e.eventType) then
        groups.map (fun g =>
          if g.kind == e.kind && g.eventType == e.eventType then
            { g with events := g.events ++ [e] }
          else g)
      else groups ++ [{ kind := e.kind, eventType := e.eventType, events := [e] }])
    []

/-- The useSummary flag computed once per batch in FormatBatchSlackMessage
(the total-events threshold is the literal 20 in the source). -/
def useSummaryFlag (mode : BatchMode) (totalEvents : Nat) : Bool :=
  mode == .summary || (mode == .smart && totalEvents > 20)

/-- shouldShowDetailsForGroup from pkg/formatter/formatter.go. -/
def shouldShowDetailsForGroup (mode : BatchMode) (eventType : String)
    (eventCount : Int) (maxEventsPerGroup : Int) (alwaysShowDetails : List String) :
    Bool :=
  if mode == .detailed then true
  else if alwaysShowDetails.any (fun t => t == eventType) then true
  else if mode == .smart then eventCount ≤ maxEventsPerGroup
  else false

/-- The per-group rendering decision of FormatBatchSlackMessage: each group
of the batch paired with the showDetails boolean the source computes for it
(true: one detailed attachment per event; false: one summary attachment). -/
def formatBatchDecisions (mode : BatchMode) (events : List Event)
    (maxEventsPerGroup : Int) (alwaysShowDetails : List String) :
    List (EventGroup × Bool) :=
  let totalEvents := events.length
  let groups := groupEvents events
  let us := useSummaryFlag mode totalEvents
  groups.map (fun g =>
    (g, !us && shouldShowDetailsForGroup mode g.eventType (g.events.length : Int)
          maxEventsPerGroup alwaysShowDetails))

/-! ## Reload snapshot consistency (cmd/main.go)

The five reloadable component references (formatter, filter, dedup, batcher,
notifier) are plain variables guarded by one sync.RWMutex: initComponents
replaces all of them holding the exclusive side, eventHandler copies all of
them holding the shared side. The model is an interleaving transition
system: the writer (a reload) writes the five cells one at a time to its
generation number while holding the write lock; each reader (one handler
invocation) copies the five cells one at a time while holding the read
lock. Lock semantics constrain only acquisition: a reader needs no writer
present, the writer needs no reader inside its critical section. -/

/-- The lifecycle of one handler invocation: before mu.RLock, inside the
read-locked section with the values copied so far, and after mu.RUnlock with
the five copied component references. -/
inductive RPhase where
  | idle
  | reading (vals : List Nat)
  | done (vals : List Nat)
  deriving DecidableEq, Repr

/-- Whether a reader currently holds the read lock. -/
def RPhase.isReading : RPhase → Bool
  | .reading _ => true
  | _ => false

/-- The pipeline cell state: refs are the five component variables (each
recording the generation that installed it), readers the handler threads,
writer the reloader when it holds the exclusive lock (generation being
installed, number of cells already written), gen the last generation
started. -/
structure RSys where
  refs : List Nat
  readers : List RPhase
  writer : Option (Nat × Nat)
  gen : Nat
  deriving DecidableEq, Repr

/-- Startup state: generation 0 installed in all five cells (initComponents
runs before the watcher delivers events), n handler threads idle. -/
def rInit (n : Nat) : RSys :=
  ⟨List.replicate 5 0, List.replicate n .idle, none, 0⟩

/-- Interleaved steps of handler invocations (mu.RLock, one component copy,
mu.RUnlock) and a reload (mu.Lock, one component assignment, mu.Unlock). -/
inductive RStep : RSys → RSys → Prop where
  | rAcquire (s : RSys) (i : Nat) :
      s.readers.get? i = some .idle → s.writer = none →
      RStep s { s with readers := s.readers.set i (.reading []) }
  | rRead (s : RSys) (i : Nat) (vals : List Nat) :
      s.readers.get? i = some (.reading vals) → vals.length < 5 →
      RStep s
        { s with readers := s.readers.set i (.reading (vals ++ [s.refs.getD vals.length 0])) }
  | rFinish (s : RSys) (i : Nat) (vals : List Nat) :
      s.readers.get? i = some (.reading vals) → vals.length = 5 →
      RStep s { s with readers := s.readers.set i (.done vals) }
  | wAcquire (s : RSys) :
      s.writer = none → (∀ r ∈ s.readers, r.isReading = false) →
      RStep s { s with writer := some (s.gen + 1, 0), gen := s.gen + 1 }
  | wWrite (s : RSys) (g pc : Nat) :
      s.writer = some (g, pc) → pc < 5 →
      RStep s { s with refs := s.refs.set pc g, writer := some (g, pc + 1) }
  | wRelease (s : RSys) (g : Nat) :
      s.writer = some (g, 5) →
      RStep s { s with writer := none }

/-- Reachability from the startup state with n handler threads. -/
def RReaches (n : Nat) (s : RSys) : Prop :=
  Relation.ReflTransGen RStep (rInit n) s

/-- The inductive invariant of the pipeline cell: five cells; the writer has
written its generation to the first pc cells; with no writer present all
cells agree; a reader inside the critical section excludes the writer and
has copied only values agreeing with the (then stable) cells; a completed
snapshot is internally of one generation. -/
def RInv (s : RSys) : Prop :=
  s.refs.length = 5 ∧
  (∀ g pc, s.writer = some (g, pc) → pc ≤ 5 ∧ ∀ i, i < pc → s.refs.getD i 0 = g) ∧
  (s.writer = none → ∀ a ∈ s.refs, ∀ b ∈ s.refs, a = b) ∧
  (∀ r ∈ s.readers, ∀ vals, r = RPhase.reading vals → s.writer = none ∧
    ∀ v ∈ vals, ∀ b ∈ s.refs, v = b) ∧
  (∀ r ∈ s.readers, ∀ vals, r = RPhase.done vals → ∃ g, ∀ v ∈ vals, v = g)

/-! ## Concrete inputs shared by witnesses and counterexamples -/

/-- A Pod UPDATED event with no labels and no optional data. -/
def evPod : Event :=
  { kind := "Pod", ns := "default", name := "web", eventType := "UPDATED",
    timestamp := 0, labels := [] }

/-- A rule for Pod with an expression but neither eventTypes nor labels. -/
def cfgNoBasic : FilterSettings := ⟨[⟨"Pod", [], []⟩]⟩

/-- A rule for Pod with no expression, no eventTypes, and one required label
whose configured value is the empty string. -/
def cfgEmptyVal : FilterSettings := ⟨[⟨"Pod", [], [("app", "")]⟩]⟩

/-- A compiled-program map whose Pod program always fails at evaluation. -/
def celsErr : String → Option (Event → Except Unit Bool) :=
  fun k => if k == "Pod" then some (fun _ => .error ()) else none

/-- The compiled-program map when no rule carries an expression. -/
def celsNone : String → Option (Event → Except Unit Bool) := fun _ => none

/-- Modelled from the spec: clause (b) of claim C7 as stated, that every
configured key-value pair appears in the event labels with exactly the
configured value (a missing key therefore fails). Compared against the
source semantics goMapGet, which reads a missing key as "". -/
def specLabelsMatch (fc : FilterConfig) (ev : Event) : Prop :=
  ∀ p ∈ fc.labels, ((ev.labels.find? (fun q => q.1 == p.1)).map (fun q => q.2)) = some p.2

/-- The scenario S4 batch: 25 Pod ADDED events followed by one Pod DELETED
event. -/
def s4Events : List Event :=
  ((List.range 25).map (fun i =>
    { kind := "Pod", ns := "default", name := "web-" ++ toString i,
      eventType := "ADDED", timestamp := 0, labels := [] })) ++
  [{ kind := "Pod", ns := "default", name := "web-x", eventType := "DELETED",
     timestamp := 0, labels := [] }]

/-- A dedup key used by concrete witnesses. -/
def keyW : EventKey := ⟨"Pod", "default", "web", "UPDATED"⟩

/-- Three ShouldProcess calls with distinct keys, used to exercise the
capacity bound at maxSize 2. -/
def callsW : List (EventKey × String × Int) :=
  [(⟨"Pod", "default", "a", "ADDED"⟩, "s1", 0),
   (⟨"Pod", "default", "b", "ADDED"⟩, "s2", 1),
   (⟨"Pod", "default", "c", "ADDED"⟩, "s3", 2)]

/-- A two-entry cache whose second entry is the oldest. -/
def cacheW : List (String × CacheEntry) :=
  [("Pod/default/a/ADDED", ⟨"s1", 5⟩), ("Pod/default/b/ADDED", ⟨"s2", 3⟩)]

/-! ## Helper lemmas -/

theorem matchesEventType_true_iff (et : String) (ts : List String) :
    matchesEventType et ts = true ↔ ts = [] ∨ et ∈ ts := by
  simp only [matchesEventType]
  split
  · next h => simp [List.isEmpty_iff.mp h]
  · next h =>
    simp only [List.isEmpty_iff] at h
    simp only [List.any_eq_true, beq_iff_eq, h, false_or]
    constructor
    · rintro ⟨t, ht, rfl⟩; exact ht
    · intro ht; exact ⟨et, ht, rfl⟩

theorem matchesLabels_true_iff (evL reqL : List (String × String)) :
    matchesLabels evL reqL = true ↔ ∀ p ∈ reqL, goMapGet evL p.1 = p.2 := by
  simp only [matchesLabels]
  split
  · next h => simp [List.isEmpty_iff.mp h]
  · simp [List.all_eq_true]

theorem basicFilter_eq_and (fc : FilterConfig) (ev : Event) :
    basicFilter fc ev =
      (matchesEventType ev.eventType fc.eventTypes &&
        (fc.labels.isEmpty || matchesLabels ev.labels fc.labels)) := by
  simp only [basicFilter]
  rcases h1 : matchesEventType ev.eventType fc.eventTypes with _ | _ <;>
    rcases h2 : fc.labels.isEmpty with _ | _ <;>
    rcases h3 : matchesLabels ev.labels fc.labels with _ | _ <;>
    simp [h1, h2, h3]

theorem basicFilter_true_iff (fc : FilterConfig) (ev : Event) :
    basicFilter fc ev = true ↔
      (fc.eventTypes = [] ∨ ev.eventType ∈ fc.eventTypes) ∧
      ∀ p ∈ fc.labels, goMapGet ev.labels p.1 = p.2 := by
  rw [basicFilter_eq_and]
  simp only [Bool.and_eq_true, Bool.or_eq_true, matchesEventType_true_iff,
    matchesLabels_true_iff, List.isEmpty_iff]
  constructor
  · rintro ⟨ha, hb⟩
    refine ⟨ha, ?_⟩
    rcases hb with h | h
    · simp [h]
    · exact h
  · rintro ⟨ha, hb⟩
    refine ⟨ha, ?_⟩
    by_cases h : fc.labels = []
    · exact Or.inl h
    · exact Or.inr hb

/-! ## Claim theorems -/

/-- Claim C5 (confirmed): for every pair of old and new snapshots of the
same object, the change detector returns false whenever the old and new
resource-version strings are equal, for every resource kind. -/
theorem c5_resource_version_short_circuit (oldObj newObj : KObj)
    (h : oldObj.meta.resourceVersion = newObj.meta.resourceVersion) :
    hasSignificantChange oldObj newObj = false := by
  unfold hasSignificantChange
  simp [h]

/-- Witness for C5: equal resource versions on two Pod snapshots that differ
in phase still yield false. -/
theorem c5_witness :
    hasSignificantChange (KObj.pod ⟨"42"⟩ "Pending" []) (KObj.pod ⟨"42"⟩ "Running" []) =
      false :=
  c5_resource_version_short_circuit _ _ rfl

/-- Claim C6 counterexample: a Pod rule whose expression always fails at
evaluation and which carries no basic configuration (empty eventTypes and
labels). The claim says the event is dropped; Filter.ShouldProcess falls
through to the basic block, which accepts, so the decision is true. -/
theorem c6_counterexample :
    cfgNoBasic.filters = [⟨"Pod", [], []⟩] ∧
    (∃ f, celsErr "Pod" = some f ∧ f evPod = Except.error ()) ∧
    filterShouldProcess cfgNoBasic celsErr evPod = true :=
  ⟨rfl, ⟨fun _ => .error (), rfl, rfl⟩, rfl⟩

/-- Claim C6 amended (corrected): for every event whose kind has a rule with
a compiled expression, if evaluation returns an error then the decision
equals the basic (eventTypes, labels) decision; when no basic configuration
exists that basic decision is vacuously true, so the event passes rather
than being dropped. -/
theorem c6_eval_error_fallback (cfg : FilterSettings)
    (cels : String → Option (Event → Except Unit Bool)) (ev : Event)
    (fc : FilterConfig) (f : Event → Except Unit Bool)
    (h1 : getFilterForResource cfg ev.kind = some fc)
    (h2 : cels ev.kind = some f) (h3 : f ev = Except.error ()) :
    filterShouldProcess cfg cels ev = basicFilter fc ev := by
  simp [filterShouldProcess, h1, h2, h3]

/-- Witness for the amended C6 at the concrete failing-evaluator input. -/
theorem c6_witness :
    filterShouldProcess cfgNoBasic celsErr evPod = basicFilter ⟨"Pod", [], []⟩ evPod :=
  c6_eval_error_fallback cfgNoBasic celsErr evPod ⟨"Pod", [], []⟩ (fun _ => .error ())
    rfl rfl rfl

/-- Claim C7 counterexample: a rule whose labels require ("app", ""). The
event has no labels at all, so the pair does not appear in the event labels
and the claim says the event fails; the Go map read of a missing key yields
"", which equals the configured value, so the filter passes it. -/
theorem c7_counterexample :
    getFilterForResource cfgEmptyVal "Pod" = some ⟨"Pod", [], [("app", "")]⟩ ∧
    ¬ specLabelsMatch ⟨"Pod", [], [("app", "")]⟩ evPod ∧
    filterShouldProcess cfgEmptyVal celsNone evPod = true := by
  refine ⟨rfl, ?_, rfl⟩
  intro h
  have := h ("app", "") (by simp)
  simp [evPod] at this

/-- Claim C7 amended (corrected): for every event whose kind has a rule
without an expression, the filter passes the event iff (a) the eventTypes
list is empty or contains the eventType, and (b) for every configured
key-value pair the Go map read of the event labels (missing key reads as
the empty string) equals the configured value; so a missing configured key
fails unless the configured value is the empty string, and extra labels on
the event are ignored. -/
theorem c7_basic_filter_spec (cfg : FilterSettings)
    (cels : String → Option (Event → Except Unit Bool)) (ev : Event)
    (fc : FilterConfig)
    (h1 : getFilterForResource cfg ev.kind = some fc)
    (h2 : cels ev.kind = none) :
    filterShouldProcess cfg cels ev = true ↔
      (fc.eventTypes = [] ∨ ev.eventType ∈ fc.eventTypes) ∧
      ∀ p ∈ fc.labels, goMapGet ev.labels p.1 = p.2 := by
  rw [show filterShouldProcess cfg cels ev = basicFilter fc ev by
        simp [filterShouldProcess, h1, h2]]
  exact basicFilter_true_iff fc ev

/-- Witness for the amended C7: the empty-value rule passes the label-less
Pod event. -/
theorem c7_witness : filterShouldProcess cfgEmptyVal celsNone evPod = true :=
  (c7_basic_filter_spec cfgEmptyVal celsNone evPod ⟨"Pod", [], [("app", "")]⟩ rfl rfl).mpr
    (by decide)

/-- Claim C1 evaluation at the failing input (code_bug): the S4 batch of 25
Pod ADDED plus 1 Pod DELETED events in smart mode with maxEventsPerGroup 5
and alwaysShowDetails [DELETED]. Because totalEvents = 26 exceeds the
hard-coded threshold 20, useSummary forces showDetails = false for every
group, so the Pod DELETED group is rendered as a summary even though its
event type is in alwaysShowDetails — contradicting the claim (and the spec
scenario S4, the README, and Batcher.ShouldShowDetails, which give
alwaysShowDetails precedence). -/
theorem c1_batch_always_show_details_overridden :
    s4Events.length = 26 ∧
    ("DELETED" ∈ ["DELETED"]) ∧
    (formatBatchDecisions .smart s4Events 5 ["DELETED"]).map
        (fun p => (p.1.kind, p.1.eventType, p.1.events.length, p.2)) =
      [("Pod", "ADDED", 25, false), ("Pod", "DELETED", 1, false)] := by
  refine ⟨rfl, by decide, ?_⟩
  rfl

/-- Claim C8 evaluation at the failing input (code_bug): Stop flushes the
accumulated event synchronously (second and third conjuncts), but an add
after stop arms a new window timer and its firing emits another batch
(first conjunct) — the source closes stopCh in Stop yet never consults it,
so nothing prevents further emissions. -/
theorem c8_emission_after_stop :
    (batcherRun [BOp.add "a", BOp.stop, BOp.add "b", BOp.flush]).emitted =
      [["a"], ["b"]] ∧
    (batcherRun [BOp.add "a", BOp.stop]).emitted = [["a"]] ∧
    (batcherRun [BOp.add "a", BOp.stop]).stopped = true :=
  ⟨rfl, rfl, rfl⟩

theorem lookupCache_cons_self (key : String) (e : CacheEntry)
    (rest : List (String × CacheEntry)) :
    lookupCache ((key, e) :: rest) key = some e := by
  simp [lookupCache, List.find?]

/-- Claim C2 (confirmed): ShouldProcess returns true iff no live entry (one
whose observedAt is within ttl of now) exists for the key, or the live entry
has a different signature; consequently, for an event whose key is fresh,
two calls with identical payload (hence identical signature) within ttl
return true then false. -/
theorem c2_dedup_should_process_decision (d : Dedup) (k : EventKey) (sig : String)
    (t1 t2 : Int) :
    ((dedupShouldProcess d k sig t1).1 = true ↔
      (∀ e, lookupCache d.cache (makeCacheKey k) = some e → d.ttl ≤ t1 - e.timestamp) ∨
      (∃ e, lookupCache d.cache (makeCacheKey k) = some e ∧
        t1 - e.timestamp < d.ttl ∧ e.signature ≠ sig)) ∧
    (lookupCache d.cache (makeCacheKey k) = none → t2 - t1 < d.ttl →
      (dedupShouldProcess d k sig t1).1 = true ∧
      (dedupShouldProcess (dedupShouldProcess d k sig t1).2 k sig t2).1 = false) := by
  constructor
  · cases h : lookupCache d.cache (makeCacheKey k) with
    | none => simp [dedupShouldProcess, h]
    | some e =>
      by_cases hc : e.signature = sig ∧ t1 - e.timestamp < d.ttl
      · simp only [dedupShouldProcess, h, if_pos hc]
        constructor
        · intro hfalse; simp at hfalse
        · rintro (hl | ⟨e2, he2, hlt, hne⟩)
          · exact absurd (hl e rfl) (by omega)
          · rw [Option.some_inj] at he2
            exact absurd (he2 ▸ hc.1) hne
      · simp only [dedupShouldProcess, h, if_neg hc]
        refine ⟨fun _ => ?_, fun _ => by simp⟩
        by_cases hs : e.signature = sig
        · left
          intro e2 he2
          rw [Option.some_inj] at he2
          subst he2
          by_contra hlt
          exact hc ⟨hs, by omega⟩
        · by_cases hlive : t1 - e.timestamp < d.ttl
          · exact Or.inr ⟨e, rfl, hlive, hs⟩
          · exact Or.inl (fun e2 he2 => by
              rw [Option.some_inj] at he2; subst he2; omega)
  · intro hnone hwin
    have h1 : dedupShouldProcess d k sig t1 =
        (true, dedupInsert d (makeCacheKey k) sig t1) := by
      simp [dedupShouldProcess, hnone]
    refine ⟨by rw [h1], ?_⟩
    rw [h1]
    have hlook : lookupCache (dedupInsert d (makeCacheKey k) sig t1).cache
        (makeCacheKey k) = some ⟨sig, t1⟩ := by
      unfold dedupInsert
      exact lookupCache_cons_self _ _ _
    simp only [dedupShouldProcess, hlook]
    have hP : t2 - t1 < (dedupInsert d (makeCacheKey k) sig t1).ttl := hwin
    simp [hP]

/-- Witness for C2: from an empty cache, identical key and signature at
times 0 and 10 with ttl 300 give true then false. -/
theorem c2_witness :
    (dedupShouldProcess (dedupNew 300 1000) keyW "sig" 0).1 = true ∧
    (dedupShouldProcess (dedupShouldProcess (dedupNew 300 1000) keyW "sig" 0).2
      keyW "sig" 10).1 = false :=
  (c2_dedup_should_process_decision (dedupNew 300 1000) keyW "sig" 0 10).2 rfl
    (by decide)

/-- Claim C10 (confirmed): a false decision leaves the deduplicator
completely unchanged — the stored entry is not refreshed — and for an entry
stored with the same signature, a later identical call is re-admitted
exactly when ttl has elapsed since the stored observedAt, so a steady
identical stream is re-admitted once per ttl rather than suppressed
indefinitely. -/
theorem c10_duplicate_frame (d : Dedup) (k : EventKey) (sig : String) (now : Int) :
    ((dedupShouldProcess d k sig now).1 = false →
      (dedupShouldProcess d k sig now).2 = d) ∧
    (∀ e, lookupCache d.cache (makeCacheKey k) = some e → e.signature = sig →
      ((dedupShouldProcess d k sig now).1 = true ↔ d.ttl ≤ now - e.timestamp)) := by
  constructor
  · cases h : lookupCache d.cache (makeCacheKey k) with
    | none => simp [dedupShouldProcess, h]
    | some e =>
      by_cases hc : e.signature = sig ∧ now - e.timestamp < d.ttl
      · simp [dedupShouldProcess, h, if_pos hc]
      · simp [dedupShouldProcess, h, if_neg hc]
  · intro e he hs
    by_cases hlive : now - e.timestamp < d.ttl
    · simp only [dedupShouldProcess, he, if_pos (And.intro hs hlive)]
      constructor
      · intro hfalse; simp at hfalse
      · intro h2; exact absurd h2 (by omega)
    · simp only [dedupShouldProcess, he,
        if_neg (fun hc : e.signature = sig ∧ now - e.timestamp < d.ttl => hlive hc.2)]
      constructor
      · intro _; omega
      · intro _; trivial

/-- Witness for C10 at a concrete cached entry: a duplicate at time 10
leaves the state unchanged, and the same payload at time 400 (ttl 300,
entry observed at 0) is re-admitted. -/
theorem c10_witness :
    (dedupShouldProcess ⟨[("Pod/default/web/UPDATED", ⟨"s", 0⟩)], 300, 1000⟩
        keyW "s" 10).2 =
      (⟨[("Pod/default/web/UPDATED", ⟨"s", 0⟩)], 300, 1000⟩ : Dedup) ∧
    (dedupShouldProcess ⟨[("Pod/default/web/UPDATED", ⟨"s", 0⟩)], 300, 1000⟩
        keyW "s" 400).1 = true :=
  ⟨(c10_duplicate_frame ⟨[("Pod/default/web/UPDATED", ⟨"s", 0⟩)], 300, 1000⟩
      keyW "s" 10).1 (by decide),
   ((c10_duplicate_frame ⟨[("Pod/default/web/UPDATED", ⟨"s", 0⟩)], 300, 1000⟩
      keyW "s" 400).2 ⟨"s", 0⟩ (by decide) rfl).mpr (by decide)⟩

theorem batcherRunFrom_emitted (ops : List (BOp α)) :
    ∀ s : BatcherState α,
      (ops.foldl batcherStep s).emitted = s.emitted ++ specEmissions ops s.events := by
  induction ops with
  | nil => intro s; simp [specEmissions]
  | cons op ops ih =>
    intro s
    cases op with
    | add e =>
      rw [List.foldl_cons]
      simp only [batcherStep, specEmissions]
      exact ih _
    | flush =>
      rw [List.foldl_cons]
      by_cases h : s.events.isEmpty
      · simp only [batcherStep, batcherFlush, if_pos h, specEmissions, h, if_true]
        exact ih s
      · simp only [batcherStep, batcherFlush, if_neg h, specEmissions, h, if_false]
        rw [ih]
        simp
    | stop =>
      rw [List.foldl_cons]
      by_cases h : s.events.isEmpty
      · simp only [batcherStep, batcherFlush, if_pos h, specEmissions, h, if_true]
        exact ih _
      · simp only [batcherStep, batcherFlush, if_neg h, specEmissions, h, if_false]
        rw [ih]
        simp

theorem batcherRunFrom_join (ops : List (BOp α)) :
    ∀ s : BatcherState α,
      (ops.foldl batcherStep s).emitted.flatten ++ (ops.foldl batcherStep s).events =
        s.emitted.flatten ++ s.events ++ addedEvents ops := by
  induction ops with
  | nil => intro s; simp [addedEvents]
  | cons op ops ih =>
    intro s
    cases op with
    | add e =>
      rw [List.foldl_cons]
      simp only [batcherStep, addedEvents]
      rw [ih]
      simp
    | flush =>
      rw [List.foldl_cons]
      by_cases h : s.events.isEmpty
      · simp only [batcherStep, batcherFlush, if_pos h, addedEvents]
        exact ih s
      · simp only [batcherStep, batcherFlush, if_neg h, addedEvents]
        rw [ih]
        simp
    | stop =>
      rw [List.foldl_cons]
      by_cases h : s.events.isEmpty
      · simp only [batcherStep, batcherFlush, if_pos h, addedEvents]
        exact ih _
      · simp only [batcherStep, batcherFlush, if_neg h, addedEvents]
        rw [ih]
        simp

/-- Claim C4 (confirmed): every batch the batcher emits consists of exactly
the events passed to add since the previous emission (or since
construction), in insertion order (first conjunct: the emitted batches are
precisely the reference emissions computed from the operation sequence);
and no event is omitted or duplicated across emissions (second conjunct:
the emitted batches concatenated with the residual buffer reproduce the
added events exactly, in order). -/
theorem c4_batcher_exact_emissions (ops : List (BOp α)) :
    (batcherRun ops).emitted = specEmissions ops [] ∧
    (batcherRun ops).emitted.flatten ++ (batcherRun ops).events = addedEvents ops := by
  constructor
  · simpa [batcherRun] using batcherRunFrom_emitted ops ⟨[], [], false⟩
  · simpa [batcherRun] using batcherRunFrom_join ops ⟨[], [], false⟩

theorem makeCacheKey_ne_empty (k : EventKey) : makeCacheKey k ≠ "" := by
  intro h
  have hlen := congrArg String.length h
  have h1 : ("/" : String).length = 1 := rfl
  have h0 : ("" : String).length = 0 := rfl
  simp only [makeCacheKey, String.length_append, h1, h0] at hlen
  omega

theorem evictScan_spec (cache : List (String × CacheEntry)) :
    ∀ (k0 : String) (t0 : Int),
      (cache.foldl evictStep (k0, t0, false)).2.2 = false ∧
      ((cache.foldl evictStep (k0, t0, false)).1 = k0 ∧
          (cache.foldl evictStep (k0, t0, false)).2.1 = t0 ∨
        ∃ p ∈ cache, p.1 = (cache.foldl evictStep (k0, t0, false)).1 ∧
          p.2.timestamp = (cache.foldl evictStep (k0, t0, false)).2.1) ∧
      (cache.foldl evictStep (k0, t0, false)).2.1 ≤ t0 ∧
      ∀ p ∈ cache, (cache.foldl evictStep (k0, t0, false)).2.1 ≤ p.2.timestamp := by
  induction cache with
  | nil => intro k0 t0; simp
  | cons hd tl ih =>
    intro k0 t0
    have hstep : evictStep (k0, t0, false) hd =
        if hd.2.timestamp < t0 then (hd.1, hd.2.timestamp, false) else (k0, t0, false) := by
      simp [evictStep]
    by_cases hlt : hd.2.timestamp < t0
    · rw [List.foldl_cons, hstep, if_pos hlt]
      obtain ⟨ha, hb, hc, hdm⟩ := ih hd.1 hd.2.timestamp
      refine ⟨ha, ?_, by omega, ?_⟩
      · rcases hb with ⟨h1, h2⟩ | ⟨p, hp, hp1, hp2⟩
        · exact Or.inr ⟨hd, List.mem_cons_self hd tl, h1.symm ▸ rfl, h2.symm ▸ rfl⟩
        · exact Or.inr ⟨p, List.mem_cons_of_mem hd hp, hp1, hp2⟩
      · intro p hp
        rcases List.mem_cons.mp hp with rfl | hp
        · exact hc
        · exact hdm p hp
    · rw [List.foldl_cons, hstep, if_neg hlt]
      obtain ⟨ha, hb, hc, hdm⟩ := ih k0 t0
      refine ⟨ha, ?_, hc, ?_⟩
      · rcases hb with h | ⟨p, hp, hp1, hp2⟩
        · exact Or.inl h
        · exact Or.inr ⟨p, List.mem_cons_of_mem hd hp, hp1, hp2⟩
      · intro p hp
        rcases List.mem_cons.mp hp with rfl | hp
        · omega
        · exact hdm p hp

theorem evictOldest_min (cache : List (String × CacheEntry)) (hne : cache ≠ [])
    (hkeys : ∀ p ∈ cache, p.1 ≠ "") :
    ∃ p ∈ cache, (∀ q ∈ cache, p.2.timestamp ≤ q.2.timestamp) ∧
      evictOldest cache = cache.filter (fun q => q.1 != p.1) := by
  obtain ⟨hd, tl, rfl⟩ := List.exists_cons_of_ne_nil hne
  have hstep : evictStep ("", 0, true) hd = (hd.1, hd.2.timestamp, false) := by
    simp [evictStep]
  have hfold : (hd :: tl).foldl evictStep ("", 0, true) =
      tl.foldl evictStep (hd.1, hd.2.timestamp, false) := by
    rw [List.foldl_cons, hstep]
  obtain ⟨_, hmem, hle, hmin⟩ := evictScan_spec tl hd.1 hd.2.timestamp
  have hform : ∀ p : String × CacheEntry,
      p.1 = (tl.foldl evictStep (hd.1, hd.2.timestamp, false)).1 → p.1 ≠ "" →
      evictOldest (hd :: tl) = (hd :: tl).filter (fun q => q.1 != p.1) := by
    intro p hp1 hpne
    simp only [evictOldest, hfold]
    rw [if_neg (by rw [← hp1]; exact hpne), hp1]
  rcases hmem with ⟨h1, h2⟩ | ⟨p, hp, hp1, hp2⟩
  · refine ⟨hd, List.mem_cons_self hd tl, ?_, ?_⟩
    · intro q hq
      rcases List.mem_cons.mp hq with rfl | hq
      · exact le_refl _
      · exact h2 ▸ hmin q hq
    · exact hform hd h1.symm (hkeys hd (List.mem_cons_self hd tl))
  · refine ⟨p, List.mem_cons_of_mem hd hp, ?_, ?_⟩
    · intro q hq
      rcases List.mem_cons.mp hq with rfl | hq
      · omega
      · have := hmin q hq; omega
    · exact hform p hp1 (hkeys p (List.mem_cons_of_mem hd hp))

theorem evictOldest_subset (cache : List (String × CacheEntry)) :
    ∀ p ∈ evictOldest cache, p ∈ cache := by
  intro p hp
  simp only [evictOldest] at hp
  split at hp
  · exact hp
  · exact List.mem_of_mem_filter hp

theorem dedupInsert_inv (m : Int) (hm : 1 ≤ m) (d : Dedup) (k : EventKey)
    (sig : String) (t : Int) (h : DedupInv m d) :
    DedupInv m (dedupInsert d (makeCacheKey k) sig t) := by
  obtain ⟨hmax, hkv, hlen⟩ := h
  by_cases hfull : (d.cache.length : Int) ≥ d.maxSize
  · have hne : d.cache ≠ [] := by
      intro hnil
      rw [hnil] at hfull
      simp at hfull
      omega
    obtain ⟨p, hp, _, hform⟩ := evictOldest_min d.cache hne hkv
    have hlt : (d.cache.filter (fun q => q.1 != p.1)).length < d.cache.length := by
      rw [List.length_filter_lt_length_iff_exists]
      exact ⟨p, hp, by simp⟩
    refine ⟨hmax, ?_, ?_⟩
    · intro q hq
      simp only [dedupInsert, if_pos hfull] at hq
      rcases List.mem_cons.mp hq with rfl | hq
      · exact makeCacheKey_ne_empty k
      · exact hkv q (evictOldest_subset _ _ (List.mem_of_mem_filter hq))
    · simp only [dedupInsert, if_pos hfull, List.length_cons]
      have hfl : ((evictOldest d.cache).filter
          (fun p => p.1 != makeCacheKey k)).length ≤ (evictOldest d.cache).length :=
        List.length_filter_le _ _
      rw [hform] at hfl ⊢
      push_cast
      omega
  · refine ⟨hmax, ?_, ?_⟩
    · intro q hq
      simp only [dedupInsert, if_neg hfull] at hq
      rcases List.mem_cons.mp hq with rfl | hq
      · exact makeCacheKey_ne_empty k
      · exact hkv q (List.mem_of_mem_filter hq)
    · simp only [dedupInsert, if_neg hfull, List.length_cons]
      have hfl : (d.cache.filter (fun p => p.1 != makeCacheKey k)).length ≤
          d.cache.length := List.length_filter_le _ _
      push_cast
      omega

theorem dedupShouldProcess_inv (m : Int) (hm : 1 ≤ m) (d : Dedup) (k : EventKey)
    (sig : String) (t : Int) (h : DedupInv m d) :
    DedupInv m (dedupShouldProcess d k sig t).2 := by
  cases hl : lookupCache d.cache (makeCacheKey k) with
  | none =>
    simp only [dedupShouldProcess, hl]
    exact dedupInsert_inv m hm d k sig t h
  | some e =>
    by_cases hc : e.signature = sig ∧ t - e.timestamp < d.ttl
    · simp only [dedupShouldProcess, hl, if_pos hc]
      exact h
    · simp only [dedupShouldProcess, hl, if_neg hc]
      exact dedupInsert_inv m hm d k sig t h

theorem dedupRun_inv (m : Int) (hm : 1 ≤ m) (calls : List (EventKey × String × Int)) :
    ∀ d : Dedup, DedupInv m d → DedupInv m (dedupRun d calls) := by
  induction calls with
  | nil => intro d h; exact h
  | cons c calls ih =>
    intro d h
    exact ih _ (dedupShouldProcess_inv m hm d c.1 c.2.1 c.2.2 h)

/-- Claim C3 (confirmed): for any sequence of ShouldProcess calls from a
fresh deduplicator with maxSize at least 1 (the loader validates the
configured value positive), the cache never holds more than maxSize
entries; and whenever eviction runs on a nonempty cache of real
(makeCacheKey-formed, hence nonempty-string) keys, the evicted entry is one
with the minimum observedAt timestamp. -/
theorem c3_dedup_capacity_eviction (ttl m : Int) (hm : 1 ≤ m) :
    (∀ calls, ((dedupRun (dedupNew ttl m) calls).cache.length : Int) ≤ m) ∧
    (∀ cache : List (String × CacheEntry), cache ≠ [] →
      (∀ p ∈ cache, p.1 ≠ "") →
      ∃ p ∈ cache, (∀ q ∈ cache, p.2.timestamp ≤ q.2.timestamp) ∧
        evictOldest cache = cache.filter (fun q => q.1 != p.1)) := by
  constructor
  · intro calls
    have hinit : DedupInv m (dedupNew ttl m) := by
      refine ⟨rfl, ?_, ?_⟩
      · intro p hp; simp [dedupNew] at hp
      · simp [dedupNew]; omega
    exact (dedupRun_inv m hm calls _ hinit).2.2
  · exact evictOldest_min

/-- Witness for C3: three distinct-key calls against maxSize 2 stay within
the bound, and on a concrete two-entry cache the older entry is the one the
eviction scan removes. -/
theorem c3_witness :
    ((dedupRun (dedupNew 300 2) callsW).cache.length : Int) ≤ 2 ∧
    ∃ p ∈ cacheW, (∀ q ∈ cacheW, p.2.timestamp ≤ q.2.timestamp) ∧
      evictOldest cacheW = cacheW.filter (fun q => q.1 != p.1) :=
  ⟨(c3_dedup_capacity_eviction 300 2 (by decide)).1 callsW,
   (c3_dedup_capacity_eviction 300 2 (by decide)).2 cacheW (by decide) (by decide)⟩

theorem getD_mem_of_lt (l : List Nat) (i : Nat) (h : i < l.length) :
    l.getD i 0 ∈ l := by
  have hg : l.get? i = some (l.get ⟨i, h⟩) := List.get?_eq_get h
  rw [show l.getD i 0 = (l.get? i).getD 0 from rfl, hg]
  exact List.get_mem l i h

theorem rInit_inv (n : Nat) : RInv (rInit n) := by
  refine ⟨by simp [rInit], ?_, ?_, ?_, ?_⟩
  · intro g pc hsome
    exact absurd hsome (by simp [rInit])
  · intro _ a ha b hb
    have ha0 := List.eq_of_mem_replicate ha
    have hb0 := List.eq_of_mem_replicate hb
    rw [ha0, hb0]
  · intro r hr vals hrv
    have hid := List.eq_of_mem_replicate hr
    rw [hid] at hrv
    exact absurd hrv (by simp)
  · intro r hr vals hrv
    have hid := List.eq_of_mem_replicate hr
    rw [hid] at hrv
    exact absurd hrv (by simp)

theorem rstep_inv (s s2 : RSys) (hs : RInv s) (hstep : RStep s s2) : RInv s2 := by
  obtain ⟨h1, h2, h3, h4, h5⟩ := hs
  cases hstep with
  | rAcquire i hidle hw =>
    refine ⟨h1, ?_, ?_, ?_, ?_⟩
    · intro g pc hsome
      exact h2 g pc hsome
    · intro _ a ha b hb
      exact h3 hw a ha b hb
    · intro r hr vals hrv
      rcases List.mem_or_eq_of_mem_set hr with hmem | rfl
      · exact h4 r hmem vals hrv
      · cases hrv
        exact ⟨hw, by simp⟩
    · intro r hr vals hrv
      rcases List.mem_or_eq_of_mem_set hr with hmem | rfl
      · exact h5 r hmem vals hrv
      · simp at hrv
  | rRead i vals hread hlen =>
    have hrmem : RPhase.reading vals ∈ s.readers := List.get?_mem hread
    obtain ⟨hwnone, hvals⟩ := h4 _ hrmem vals rfl
    have hx : s.refs.getD vals.length 0 ∈ s.refs :=
      getD_mem_of_lt s.refs vals.length (by rw [h1]; exact hlen)
    refine ⟨h1, ?_, ?_, ?_, ?_⟩
    · intro g pc hsome
      have hs2 : s.writer = some (g, pc) := hsome
      rw [hwnone] at hs2
      exact absurd hs2 (by simp)
    · intro _ a ha b hb
      exact h3 hwnone a ha b hb
    · intro r hr vals2 hrv
      rcases List.mem_or_eq_of_mem_set hr with hmem | rfl
      · exact h4 r hmem vals2 hrv
      · cases hrv
        refine ⟨hwnone, ?_⟩
        intro v hv b hb
        rcases List.mem_append.mp hv with hv | hv
        · exact hvals v hv b hb
        · rcases List.mem_singleton.mp hv with rfl
          exact h3 hwnone _ hx b hb
    · intro r hr vals2 hrv
      rcases List.mem_or_eq_of_mem_set hr with hmem | rfl
      · exact h5 r hmem vals2 hrv
      · simp at hrv
  | rFinish i vals hread hlen5 =>
    have hrmem : RPhase.reading vals ∈ s.readers := List.get?_mem hread
    obtain ⟨hwnone, hvals⟩ := h4 _ hrmem vals rfl
    refine ⟨h1, ?_, ?_, ?_, ?_⟩
    · intro g pc hsome
      have hs2 : s.writer = some (g, pc) := hsome
      rw [hwnone] at hs2
      exact absurd hs2 (by simp)
    · intro _ a ha b hb
      exact h3 hwnone a ha b hb
    · intro r hr vals2 hrv
      rcases List.mem_or_eq_of_mem_set hr with hmem | rfl
      · exact h4 r hmem vals2 hrv
      · simp at hrv
    · intro r hr vals2 hrv
      rcases List.mem_or_eq_of_mem_set hr with hmem | rfl
      · exact h5 r hmem vals2 hrv
      · cases hrv
        have h0mem : s.refs.getD 0 0 ∈ s.refs :=
          getD_mem_of_lt s.refs 0 (by rw [h1]; omega)
        exact ⟨s.refs.getD 0 0, fun v hv => hvals v hv _ h0mem⟩
  | wAcquire hw hnoread =>
    refine ⟨h1, ?_, ?_, ?_, ?_⟩
    · intro g pc hsome
      have hs2 : (some (s.gen + 1, 0) : Option (Nat × Nat)) = some (g, pc) := hsome
      simp only [Option.some_inj, Prod.mk.injEq] at hs2
      obtain ⟨rfl, rfl⟩ := hs2
      exact ⟨by omega, fun i hi => by omega⟩
    · intro hnone2
      have hs2 : (some (s.gen + 1, 0) : Option (Nat × Nat)) = none := hnone2
      exact absurd hs2 (by simp)
    · intro r hr vals hrv
      have hnr := hnoread r hr
      rw [hrv] at hnr
      simp [RPhase.isReading] at hnr
    · intro r hr vals hrv
      exact h5 r hr vals hrv
  | wWrite g pc hw hpc =>
    obtain ⟨hpc5, hpref⟩ := h2 g pc hw
    refine ⟨?_, ?_, ?_, ?_, ?_⟩
    · exact (List.length_set s.refs pc g).trans h1
    · intro g2 pc2 hsome
      have hs2 : (some (g, pc + 1) : Option (Nat × Nat)) = some (g2, pc2) := hsome
      simp only [Option.some_inj, Prod.mk.injEq] at hs2
      obtain ⟨rfl, rfl⟩ := hs2
      refine ⟨by omega, ?_⟩
      intro i hi
      show (s.refs.set pc g).getD i 0 = g
      by_cases hip : i = pc
      · subst hip
        have hlt : i < s.refs.length := by rw [h1]; omega
        rw [List.getD_eq_getElem?_getD, List.getElem?_set_self hlt]
        rfl
      · have hilt : i < pc := by omega
        rw [List.getD_eq_getElem?_getD, List.getElem?_set_ne (fun h => hip h.symm)]
        rw [← List.getD_eq_getElem?_getD]
        exact hpref i hilt
    · intro hnone2
      have hs2 : (some (g, pc + 1) : Option (Nat × Nat)) = none := hnone2
      exact absurd hs2 (by simp)
    · intro r hr vals hrv
      have hnone := (h4 r hr vals hrv).1
      rw [hw] at hnone
      exact absurd hnone (by simp)
    · intro r hr vals hrv
      exact h5 r hr vals hrv
  | wRelease g hw =>
    obtain ⟨_, hpref⟩ := h2 g 5 hw
    have hval : ∀ c ∈ s.refs, c = g := by
      intro c hc
      obtain ⟨nidx, hn⟩ := List.mem_iff_get?.mp hc
      obtain ⟨hlt, _⟩ := List.get?_eq_some.mp hn
      have hg : s.refs.getD nidx 0 = g := hpref nidx (by rw [h1] at hlt; omega)
      rw [show s.refs.getD nidx 0 = (s.refs.get? nidx).getD 0 from rfl, hn] at hg
      exact hg
    refine ⟨h1, ?_, ?_, ?_, ?_⟩
    · intro g2 pc2 hsome
      have hs2 : (none : Option (Nat × Nat)) = some (g2, pc2) := hsome
      exact absurd hs2 (by simp)
    · intro _ a ha b hb
      rw [hval a ha, hval b hb]
    · intro r hr vals hrv
      have hnone := (h4 r hr vals hrv).1
      rw [hw] at hnone
      exact absurd hnone (by simp)
    · intro r hr vals hrv
      exact h5 r hr vals hrv

/-- Claim C9 (confirmed): in every state reachable by interleaving handler
snapshots with reloads under the RWMutex discipline of cmd/main.go, every
completed handler snapshot consists of component references of one single
generation — the reload swap is atomic from the point of view of any
handler invocation. -/
theorem c9_snapshot_same_generation (n : Nat) (s : RSys) (h : RReaches n s) :
    ∀ r ∈ s.readers, ∀ vals, r = RPhase.done vals → ∃ g, ∀ v ∈ vals, v = g := by
  have hinv : RInv s := by
    unfold RReaches at h
    induction h with
    | refl => exact rInit_inv n
    | tail hsteps hstep ih => exact rstep_inv _ _ ih hstep
  exact hinv.2.2.2.2

/-- Witness for C9: a concrete interleaving in which one handler acquires
the read lock, copies the five component references one by one, and
releases; its completed snapshot is of a single generation. -/
theorem c9_witness : ∃ g, ∀ v ∈ ([0, 0, 0, 0, 0] : List Nat), v = g := by
  have h1 : RStep (rInit 1) ⟨[0, 0, 0, 0, 0], [RPhase.reading []], none, 0⟩ :=
    RStep.rAcquire (rInit 1) 0 (by decide) rfl
  have h2 : RStep ⟨[0, 0, 0, 0, 0], [RPhase.reading []], none, 0⟩
      ⟨[0, 0, 0, 0, 0], [RPhase.reading [0]], none, 0⟩ :=
    RStep.rRead _ 0 [] (by decide) (by decide)
  have h3 : RStep ⟨[0, 0, 0, 0, 0], [RPhase.reading [0]], none, 0⟩
      ⟨[0, 0, 0, 0, 0], [RPhase.reading [0, 0]], none, 0⟩ :=
    RStep.rRead _ 0 [0] (by decide) (by decide)
  have h4 : RStep ⟨[0, 0, 0, 0, 0], [RPhase.reading [0, 0]], none, 0⟩
      ⟨[0, 0, 0, 0, 0], [RPhase.reading [0, 0, 0]], none, 0⟩ :=
    RStep.rRead _ 0 [0, 0] (by decide) (by decide)
  have h5 : RStep ⟨[0, 0, 0, 0, 0], [RPhase.reading [0, 0, 0]], none, 0⟩
      ⟨[0, 0, 0, 0, 0], [RPhase.reading [0, 0, 0, 0]], none, 0⟩ :=
    RStep.rRead _ 0 [0, 0, 0] (by decide) (by decide)
  have h6 : RStep ⟨[0, 0, 0, 0, 0], [RPhase.reading [0, 0, 0, 0]], none, 0⟩
      ⟨[0, 0, 0, 0, 0], [RPhase.reading [0, 0, 0, 0, 0]], none, 0⟩ :=
    RStep.rRead _ 0 [0, 0, 0, 0] (by decide) (by decide)
  have h7 : RStep ⟨[0, 0, 0, 0, 0], [RPhase.reading [0, 0, 0, 0, 0]], none, 0⟩
      ⟨[0, 0, 0, 0, 0], [RPhase.done [0, 0, 0, 0, 0]], none, 0⟩ :=
    RStep.rFinish _ 0 [0, 0, 0, 0, 0] (by decide) (by decide)
  have hreach : RReaches 1 ⟨[0, 0, 0, 0, 0], [RPhase.done [0, 0, 0, 0, 0]], none, 0⟩ :=
    .head h1 (.head h2 (.head h3 (.head h4 (.head h5 (.head h6 (.head h7 .refl))))))
  exact c9_snapshot_same_generation 1 _ hreach (RPhase.done [0, 0, 0, 0, 0]) (by decide)
    [0, 0, 0, 0, 0] rfl

end KW
